import Mathlib

/-!
Shallow embedding of the nestjs-cqrs-analyzer core (src/types/index.ts,
src/file-analyzer/index.ts, src/architecture-analyzer/index.ts,
src/diagram-generators/mermaid-generator.ts), together with theorems
settling the frozen claims about it.
-/

set_option maxRecDepth 4000

/-! ## Data model (src/types/index.ts) -/

/-- `BusType` from src/types/index.ts. -/
inductive BusType where
  | EventBus
  | QueryBus
  | CommandBus
deriving DecidableEq

/-- `HandlerType` from src/types/index.ts. -/
inductive HandlerType where
  | QueryHandler
  | CommandHandler
  | EventsHandler
deriving DecidableEq

/-- `ts.LineAndCharacter`: one-based line/character position. -/
structure LineAndCharacter where
  line : Nat
  character : Nat
deriving DecidableEq

/-- `BusUsage` from src/types/index.ts. -/
structure BusUsage where
  sourceFile : String
  className : String
  methodName : Option String
  busType : BusType
  eventType : String
  position : LineAndCharacter
deriving DecidableEq

/-- `HandlerDeclaration` from src/types/index.ts. -/
structure HandlerDeclaration where
  sourceFile : String
  className : String
  handlerType : HandlerType
  eventType : String
  position : LineAndCharacter
deriving DecidableEq

/-- `AnalysisResult` from src/types/index.ts. -/
structure AnalysisResult where
  busUsages : List BusUsage
  handlerDeclarations : List HandlerDeclaration
deriving DecidableEq

/-! ## Edge-budget truncation (MermaidGenerator.generateDiagram,
src/diagram-generators/mermaid-generator.ts lines 52-68).

The JS comparison `busUsages.length > maxEdges / 2` is over real numbers
(`maxEdges / 2` is not floored); for natural `maxEdges` it is equivalent to
`2 * busUsages.length > maxEdges`.  `slice(0, Math.floor(maxEdges / 2))`
is `List.take (maxEdges / 2)` with Nat division.  `remainingEdges` is
never negative inside the triggered branch, so Nat subtraction is exact. -/

/-- Stage one of the truncation: `if (busUsages.length > maxEdges / 2)
busUsages = busUsages.slice(0, Math.floor(maxEdges / 2))`. -/
def truncBus {α : Type} (maxEdges : Nat) (busUsages : List α) : List α :=
  if 2 * busUsages.length > maxEdges then busUsages.take (maxEdges / 2)
  else busUsages

/-- Stage two: `const remainingEdges = maxEdges - busUsages.length;
if (remainingEdges > 0 && handlerDeclarations.length > remainingEdges)
handlerDeclarations = handlerDeclarations.slice(0, remainingEdges)`. -/
def truncHand {β : Type} (maxEdges busLen : Nat) (handlerDeclarations : List β) :
    List β :=
  if maxEdges - busLen > 0 ∧ handlerDeclarations.length > maxEdges - busLen then
    handlerDeclarations.take (maxEdges - busLen)
  else handlerDeclarations

def applyMaxEdges {α β : Type} (maxEdges : Nat) (busUsages : List α)
    (handlerDeclarations : List β) : List α × List β :=
  if maxEdges > 0 ∧ busUsages.length + handlerDeclarations.length > maxEdges then
    (truncBus maxEdges busUsages,
      truncHand maxEdges (truncBus maxEdges busUsages).length handlerDeclarations)
  else (busUsages, handlerDeclarations)

theorem truncBus_length_le {α : Type} (m : Nat) (bus : List α) :
    (truncBus m bus).length ≤ m / 2 ∨ 2 * bus.length ≤ m := by
  unfold truncBus
  by_cases h : 2 * bus.length > m
  · left
    simp [h, List.length_take]
  · right
    omega

theorem truncBus_length_le' {α : Type} (m : Nat) (bus : List α) :
    (truncBus m bus).length ≤ m / 2 := by
  unfold truncBus
  by_cases h : 2 * bus.length > m
  · simp [h, List.length_take]
  · simp [h]
    omega

theorem truncHand_length_le {β : Type} (m busLen : Nat) (hand : List β)
    (hb : busLen < m) : (truncHand m busLen hand).length ≤ m - busLen := by
  unfold truncHand
  by_cases h : m - busLen > 0 ∧ hand.length > m - busLen
  · simp [h, List.length_take]
  · rw [if_neg h]
    push_neg at h
    omega

theorem truncBus_isPre {α : Type} (m : Nat) (bus : List α) :
    truncBus m bus <+: bus := by
  unfold truncBus
  split
  · exact ⟨bus.drop (m / 2), List.take_append_drop _ _⟩
  · exact ⟨[], List.append_nil bus⟩

theorem truncHand_isPre {β : Type} (m busLen : Nat) (hand : List β) :
    truncHand m busLen hand <+: hand := by
  unfold truncHand
  split
  · exact ⟨hand.drop _, List.take_append_drop _ _⟩
  · exact ⟨[], List.append_nil hand⟩

theorem applyMaxEdges_total_le {α β : Type} (m : Nat) (bus : List α)
    (hand : List β) (hm : 0 < m) :
    (applyMaxEdges m bus hand).1.length + (applyMaxEdges m bus hand).2.length ≤ m ∨
    applyMaxEdges m bus hand = (bus, hand) := by
  by_cases hg : m > 0 ∧ bus.length + hand.length > m
  · left
    rw [applyMaxEdges, if_pos hg]
    have h1 : (truncBus m bus).length ≤ m / 2 := truncBus_length_le' m bus
    have h2 : (truncBus m bus).length < m := by
      have := Nat.div_lt_self hm (by norm_num : 1 < 2)
      omega
    have h3 := truncHand_length_le m (truncBus m bus).length hand h2
    simpa using by omega
  · right
    rw [applyMaxEdges, if_neg hg]

/-- Sample edges used by witnesses. -/
def sampleBus (n : Nat) : BusUsage :=
  ⟨"a.ts", "OrderService", none, BusType.CommandBus, "E", ⟨n, 0⟩⟩

/-- Sample handler edges used by witnesses. -/
def sampleHand (n : Nat) : HandlerDeclaration :=
  ⟨"a.ts", "OrderHandler", HandlerType.CommandHandler, "E", ⟨n, 0⟩⟩

/-- C2: for a positive budget `m` exceeded by the combined edge count, the
bus-usage list is truncated to the prefix of length `⌊m / 2⌋` exactly when its
length exceeds `m / 2`; then, with `rem = m` minus the current bus-usage
count, the handler list is truncated to the prefix of length `rem` exactly
when `rem` is positive and the handler count exceeds it; both outputs are
prefixes of the inputs (no reordering or sampling); for budget 3 with 4
bus-usage edges and 2 handler edges the results have lengths 1 and 2. -/
theorem c2_budget_truncation :
    (∀ (m : Nat) (bus : List BusUsage) (hand : List HandlerDeclaration),
      0 < m → bus.length + hand.length > m →
      (2 * bus.length > m → (applyMaxEdges m bus hand).1 = bus.take (m / 2)) ∧
      (2 * bus.length ≤ m → (applyMaxEdges m bus hand).1 = bus) ∧
      ((0 < m - (applyMaxEdges m bus hand).1.length ∧
          hand.length > m - (applyMaxEdges m bus hand).1.length →
        (applyMaxEdges m bus hand).2 =
          hand.take (m - (applyMaxEdges m bus hand).1.length)) ∧
       (¬(0 < m - (applyMaxEdges m bus hand).1.length ∧
          hand.length > m - (applyMaxEdges m bus hand).1.length) →
        (applyMaxEdges m bus hand).2 = hand)) ∧
      (applyMaxEdges m bus hand).1 <+: bus ∧
      (applyMaxEdges m bus hand).2 <+: hand) ∧
    (∀ b1 b2 b3 b4 h1 h2 : Nat,
      applyMaxEdges 3 [sampleBus b1, sampleBus b2, sampleBus b3, sampleBus b4]
        [sampleHand h1, sampleHand h2] =
        ([sampleBus b1], [sampleHand h1, sampleHand h2])) := by
  constructor
  · intro m bus hand hm htot
    have hg : m > 0 ∧ bus.length + hand.length > m := ⟨hm, htot⟩
    have h1 : (applyMaxEdges m bus hand).1 = truncBus m bus := by
      rw [applyMaxEdges, if_pos hg]
    have h2 : (applyMaxEdges m bus hand).2 =
        truncHand m (truncBus m bus).length hand := by
      rw [applyMaxEdges, if_pos hg]
    refine ⟨?_, ?_, ⟨?_, ?_⟩, ?_, ?_⟩
    · intro hb
      rw [h1, truncBus, if_pos hb]
    · intro hb
      rw [h1, truncBus, if_neg (by omega)]
    · intro hh
      rw [h1] at hh
      rw [h1, h2, truncHand, if_pos hh]
    · intro hh
      rw [h1] at hh
      rw [h2, truncHand, if_neg hh]
    · rw [h1]
      exact truncBus_isPre m bus
    · rw [h2]
      exact truncHand_isPre m _ hand
  · intro b1 b2 b3 b4 h1 h2
    rfl

/-- Witness for C2 at budget 3 with 4 bus-usage and 2 handler edges. -/
theorem c2_budget_truncation_witness :
    (applyMaxEdges 3 [sampleBus 0, sampleBus 1, sampleBus 2, sampleBus 3]
        [sampleHand 0, sampleHand 1]).1 =
      [sampleBus 0, sampleBus 1, sampleBus 2, sampleBus 3].take (3 / 2) :=
  (c2_budget_truncation.1 3
    [sampleBus 0, sampleBus 1, sampleBus 2, sampleBus 3]
    [sampleHand 0, sampleHand 1] (by decide) (by decide)).1 (by decide)

/-- C6: applying the budget truncation twice with the same positive budget
gives the same pair of lists as applying it once. -/
theorem c6_truncation_idempotent (m : Nat) (bus : List BusUsage)
    (hand : List HandlerDeclaration) (hm : 0 < m) :
    applyMaxEdges m (applyMaxEdges m bus hand).1 (applyMaxEdges m bus hand).2 =
      applyMaxEdges m bus hand := by
  rcases applyMaxEdges_total_le m bus hand hm with h | h
  · rw [applyMaxEdges, if_neg (by omega)]
  · rw [h]
    exact h

/-- Witness for C6 at budget 3. -/
theorem c6_truncation_idempotent_witness :
    applyMaxEdges 3
        (applyMaxEdges 3 [sampleBus 0, sampleBus 1, sampleBus 2, sampleBus 3]
          [sampleHand 0, sampleHand 1]).1
        (applyMaxEdges 3 [sampleBus 0, sampleBus 1, sampleBus 2, sampleBus 3]
          [sampleHand 0, sampleHand 1]).2 =
      applyMaxEdges 3 [sampleBus 0, sampleBus 1, sampleBus 2, sampleBus 3]
        [sampleHand 0, sampleHand 1] :=
  c6_truncation_idempotent 3 [sampleBus 0, sampleBus 1, sampleBus 2, sampleBus 3]
    [sampleHand 0, sampleHand 1] (by decide)

/-! ## Syntax-tree fragments (the TypeScript AST shapes inspected by
src/file-analyzer/index.ts).

`MemberName` models `PropertyAccessExpression.name` / `MethodDeclaration.name`:
an `Identifier` (`mIdent`) or any other property-name kind such as a computed,
string-literal or private name (`mOther`).  `Expr` models exactly the
expression shapes the analyzer discriminates on; every shape it never looks
inside collapses to `other`.  A call expression carries the literal source
texts of its explicit type arguments (`typeArguments[i].getText(sourceFile)`)
since the analyzer only ever reads that text. -/

inductive MemberName where
  | mIdent (text : String)
  | mOther (text : String)
deriving DecidableEq

inductive Expr where
  | ident (name : String)
  | thisExpr
  | propAccess (obj : Expr) (prop : MemberName)
  | newExpr (callee : Expr) (args : List Expr)
  | call (callee : Expr) (typeArgs : List String) (args : List Expr)
  | otherExpr

/-- One step of a node's ancestor chain, as discriminated by
`findParentClass` / `findMethodName`: a class declaration (whose `name` is
absent for anonymous classes), a method declaration (whose `name` is a
`MemberName`; the grammar always supplies one, but the code guards on it, so
the model keeps it optional), or any other node kind. -/
inductive AncNode where
  | classDecl (name : Option String)
  | methodDecl (name : Option MemberName)
  | otherNode
deriving DecidableEq

/-- `findParentClass` (src/file-analyzer/index.ts lines 65-76): walk the
ancestor chain and return the name of the first class declaration that has
one. -/
def findParentClass : List AncNode → Option String
  | [] => none
  | AncNode.classDecl (some n) :: _ => some n
  | _ :: rest => findParentClass rest

/-- `findMethodName` (src/file-analyzer/index.ts lines 83-94): walk the
ancestor chain; at the first method declaration that has a name, return the
name when it is an identifier and `null` otherwise. -/
def findMethodName : List AncNode → Option String
  | [] => none
  | AncNode.methodDecl (some (MemberName.mIdent n)) :: _ => some n
  | AncNode.methodDecl (some (MemberName.mOther _)) :: _ => none
  | _ :: rest => findMethodName rest

/-- `extractTypeArgument` (src/file-analyzer/index.ts lines 102-130), applied
to a call's explicit type-argument texts and its argument expressions. -/
def extractTypeArgument (typeArgs : List String) (args : List Expr) : String :=
  match typeArgs with
  | t :: _ => t
  | [] =>
    match args with
    | Expr.newExpr (Expr.ident n) _ :: _ => n
    | Expr.ident n :: _ => n
    | Expr.propAccess _ (MemberName.mIdent n) :: _ => n
    | _ => "Unknown"

/-- Substring containment on character lists, modelling JS
`String.prototype.includes`. -/
def charsIncludes : List Char → List Char → Bool
  | [], needle => needle.isEmpty
  | c :: t, needle => needle.isPrefixOf (c :: t) || charsIncludes t needle

/-- `strIncludes s sub` models `s.includes(sub)`. -/
def strIncludes (s sub : String) : Bool :=
  charsIncludes s.toList sub.toList

/-- `objectName.toLowerCase()`, character by character. -/
def strToLower (s : String) : String :=
  ⟨s.data.map Char.toLower⟩

/-- `determineBusType` (src/file-analyzer/index.ts lines 137-145). -/
def determineBusType (objectName : String) : Option BusType :=
  let lowerName := strToLower objectName
  if strIncludes lowerName ("event") && strIncludes lowerName ("bus") then
    some BusType.EventBus
  else if strIncludes lowerName ("query") && strIncludes lowerName ("bus") then
    some BusType.QueryBus
  else if strIncludes lowerName ("command") && strIncludes lowerName ("bus") then
    some BusType.CommandBus
  else none

/-- `getObjectName` (src/file-analyzer/index.ts lines 152-162). -/
def getObjectName : Expr → String
  | Expr.ident n => n
  | Expr.propAccess _ (MemberName.mIdent n) => n
  | _ => ""

/-- A call-expression node as seen by `processPotentialBusUsage`: its callee,
explicit type-argument texts, argument expressions, ancestor chain
(innermost first) and source position. -/
structure CallNode where
  callee : Expr
  typeArgs : List String
  args : List Expr
  chain : List AncNode
  pos : LineAndCharacter

/-- `processPotentialBusUsage` (src/file-analyzer/index.ts lines 181-214):
append one `BusUsage` edge when the callee is `receiver.m(...)` with `m` one
of `publish`/`execute`/`dispatch` and the receiver name matches a bus type;
otherwise return the accumulator unchanged. -/
def processPotentialBusUsage (filePath : String) (node : CallNode)
    (busUsages : List BusUsage) : List BusUsage :=
  match node.callee with
  | Expr.propAccess receiver (MemberName.mIdent methodName) =>
    if methodName ∈ ["publish", "execute", "dispatch"] then
      let objectName := getObjectName receiver
      match determineBusType objectName with
      | none => busUsages
      | some busType =>
        let className := (findParentClass node.chain).getD ("Unknown")
        let enclosingMethod := findMethodName node.chain
        let eventType := extractTypeArgument node.typeArgs node.args
        busUsages ++
          [⟨filePath, className, enclosingMethod, busType, eventType, node.pos⟩]
    else busUsages
  | _ => busUsages

/-- Scenario 1 from the spec: `this.commandBus.execute(new CreateOrderCommand())`
inside method `placeOrder` of class `OrderService`. -/
def scenario1Node : CallNode :=
  { callee := Expr.propAccess
      (Expr.propAccess Expr.thisExpr (MemberName.mIdent "commandBus"))
      (MemberName.mIdent "execute")
    typeArgs := []
    args := [Expr.newExpr (Expr.ident "CreateOrderCommand") []]
    chain := [AncNode.otherNode,
      AncNode.methodDecl (some (MemberName.mIdent "placeOrder")),
      AncNode.classDecl (some "OrderService")]
    pos := ⟨10, 4⟩ }

/-- The first-argument shapes `extractTypeArgument` recognizes: a
new-expression with identifier callee, a bare identifier, or a property
access with identifier property. -/
def recognizedArgShape : Expr → Bool
  | Expr.newExpr (Expr.ident _) _ => true
  | Expr.ident _ => true
  | Expr.propAccess _ (MemberName.mIdent _) => true
  | _ => false

/-- C3: the recorded eventType follows the ordered fallback of
`extractTypeArgument`: explicit first type-argument text; else the callee
identifier of a first-argument new-expression; else a first-argument
identifier; else the rightmost identifier of a first-argument property
access; else the sentinel "Unknown"; and
`this.commandBus.execute(new CreateOrderCommand())` inside class
`OrderService`, method `placeOrder`, yields exactly the expected edge. -/
theorem c3_event_type_inference :
    (∀ (t : String) (rest : List String) (args : List Expr),
      extractTypeArgument (t :: rest) args = t) ∧
    (∀ (n : String) (cargs rest : List Expr),
      extractTypeArgument [] (Expr.newExpr (Expr.ident n) cargs :: rest) = n) ∧
    (∀ (n : String) (rest : List Expr),
      extractTypeArgument [] (Expr.ident n :: rest) = n) ∧
    (∀ (o : Expr) (n : String) (rest : List Expr),
      extractTypeArgument []
        (Expr.propAccess o (MemberName.mIdent n) :: rest) = n) ∧
    extractTypeArgument [] [] = "Unknown" ∧
    (∀ (hd : Expr) (rest : List Expr), recognizedArgShape hd = false →
      extractTypeArgument [] (hd :: rest) = "Unknown") ∧
    processPotentialBusUsage "order.service.ts" scenario1Node [] =
      [⟨"order.service.ts", "OrderService", some "placeOrder",
        BusType.CommandBus, "CreateOrderCommand", ⟨10, 4⟩⟩] := by
  refine ⟨fun t rest args => rfl, fun n cargs rest => rfl, fun n rest => rfl,
    fun o n rest => rfl, rfl, ?_, rfl⟩
  intro hd rest h
  cases hd with
  | ident n => simp [recognizedArgShape] at h
  | thisExpr => rfl
  | propAccess o p =>
    cases p with
    | mIdent n => simp [recognizedArgShape] at h
    | mOther n => rfl
  | newExpr c a =>
    cases c with
    | ident n => simp [recognizedArgShape] at h
    | thisExpr => rfl
    | propAccess o p => rfl
    | newExpr c2 a2 => rfl
    | call c2 t2 a2 => rfl
    | otherExpr => rfl
  | call c t a => rfl
  | otherExpr => rfl

/-- Witness for C3: an unrecognized first-argument shape yields "Unknown". -/
theorem c3_event_type_inference_witness :
    extractTypeArgument [] [Expr.thisExpr] = "Unknown" :=
  c3_event_type_inference.2.2.2.2.2.1 Expr.thisExpr [] (by decide)

/-- C4: bus-type inference is the case-insensitive substring test in fixed
priority order (event+bus, then query+bus, then command+bus, else none);
calls whose method name is not publish/execute/dispatch are ignored, and a
receiver matching no bus type records no edge. -/
theorem c4_dispatch_gate_and_bus_heuristic :
    (∀ s : String,
      (determineBusType s = some BusType.EventBus ↔
        (strIncludes (strToLower s) ("event") &&
          strIncludes (strToLower s) ("bus")) = true) ∧
      (determineBusType s = some BusType.QueryBus ↔
        ((strIncludes (strToLower s) ("event") &&
           strIncludes (strToLower s) ("bus")) = false ∧
         (strIncludes (strToLower s) ("query") &&
           strIncludes (strToLower s) ("bus")) = true)) ∧
      (determineBusType s = some BusType.CommandBus ↔
        ((strIncludes (strToLower s) ("event") &&
           strIncludes (strToLower s) ("bus")) = false ∧
         (strIncludes (strToLower s) ("query") &&
           strIncludes (strToLower s) ("bus")) = false ∧
         (strIncludes (strToLower s) ("command") &&
           strIncludes (strToLower s) ("bus")) = true)) ∧
      (determineBusType s = none ↔
        ((strIncludes (strToLower s) ("event") &&
           strIncludes (strToLower s) ("bus")) = false ∧
         (strIncludes (strToLower s) ("query") &&
           strIncludes (strToLower s) ("bus")) = false ∧
         (strIncludes (strToLower s) ("command") &&
           strIncludes (strToLower s) ("bus")) = false))) ∧
    (∀ (fp : String) (receiver : Expr) (mn : String) (tas : List String)
        (args : List Expr) (chain : List AncNode) (pos : LineAndCharacter)
        (acc : List BusUsage),
      mn ∉ ["publish", "execute", "dispatch"] →
      processPotentialBusUsage fp
        ⟨Expr.propAccess receiver (MemberName.mIdent mn), tas, args, chain, pos⟩
        acc = acc) ∧
    (∀ (fp : String) (receiver : Expr) (mn : String) (tas : List String)
        (args : List Expr) (chain : List AncNode) (pos : LineAndCharacter)
        (acc : List BusUsage),
      determineBusType (getObjectName receiver) = none →
      processPotentialBusUsage fp
        ⟨Expr.propAccess receiver (MemberName.mIdent mn), tas, args, chain, pos⟩
        acc = acc) := by
  refine ⟨?_, ?_, ?_⟩
  · intro s
    simp only [determineBusType]
    by_cases h1 : (strIncludes (strToLower s) ("event") &&
        strIncludes (strToLower s) ("bus")) = true
    · rw [if_pos h1]
      exact ⟨by simp [h1], by simp [h1], by simp [h1], by simp [h1]⟩
    · rw [if_neg h1]
      have hx1 : (strIncludes (strToLower s) ("event") &&
          strIncludes (strToLower s) ("bus")) = false := by
        simpa using h1
      by_cases h2 : (strIncludes (strToLower s) ("query") &&
          strIncludes (strToLower s) ("bus")) = true
      · rw [if_pos h2]
        exact ⟨by simp [hx1], by simp [hx1, h2], by simp [h2], by simp [h2]⟩
      · rw [if_neg h2]
        have hx2 : (strIncludes (strToLower s) ("query") &&
            strIncludes (strToLower s) ("bus")) = false := by
          simpa using h2
        by_cases h3 : (strIncludes (strToLower s) ("command") &&
            strIncludes (strToLower s) ("bus")) = true
        · rw [if_pos h3]
          exact ⟨by simp [hx1], by simp [hx2], by simp [hx1, hx2, h3],
            by simp [h3]⟩
        · rw [if_neg h3]
          have hx3 : (strIncludes (strToLower s) ("command") &&
              strIncludes (strToLower s) ("bus")) = false := by
            simpa using h3
          exact ⟨by simp [hx1], by simp [hx2], by simp [hx3],
            by simp [hx1, hx2, hx3]⟩
  · intro fp receiver mn tas args chain pos acc hmn
    simp only [processPotentialBusUsage]
    rw [if_neg hmn]
  · intro fp receiver mn tas args chain pos acc hbt
    simp only [processPotentialBusUsage]
    by_cases hmn : mn ∈ ["publish", "execute", "dispatch"]
    · rw [if_pos hmn]
      simp only [hbt]
    · rw [if_neg hmn]

/-- Witness for C4: a non-dispatch method name on a bus-named receiver
records nothing. -/
theorem c4_dispatch_gate_and_bus_heuristic_witness :
    processPotentialBusUsage "a.ts"
      ⟨Expr.propAccess (Expr.ident "commandBus") (MemberName.mIdent "send"),
        [], [], [], ⟨0, 0⟩⟩ [] = [] :=
  c4_dispatch_gate_and_bus_heuristic.2.1 "a.ts" (Expr.ident "commandBus")
    "send" [] [] [] ⟨0, 0⟩ [] (by decide)

/-- The receiver shapes from which `getObjectName` can extract a name: a
bare identifier or a property access whose property is an identifier. -/
def receiverHasName : Expr → Bool
  | Expr.ident _ => true
  | Expr.propAccess _ (MemberName.mIdent _) => true
  | _ => false

/-- C10: when the receiver of a publish/execute/dispatch call is neither a
simple identifier nor a property access with identifier property, its
identifying name is the empty string, bus-type inference returns no match,
and the call records no edge. -/
theorem c10_nameless_receiver_skipped :
    ∀ receiver : Expr, receiverHasName receiver = false →
      getObjectName receiver = "" ∧
      determineBusType (getObjectName receiver) = none ∧
      (∀ (fp mn : String) (tas : List String) (args : List Expr)
          (chain : List AncNode) (pos : LineAndCharacter)
          (acc : List BusUsage),
        mn ∈ ["publish", "execute", "dispatch"] →
        processPotentialBusUsage fp
          ⟨Expr.propAccess receiver (MemberName.mIdent mn), tas, args, chain,
            pos⟩ acc = acc) := by
  intro receiver hr
  have hname : getObjectName receiver = "" := by
    cases receiver with
    | ident n => simp [receiverHasName] at hr
    | thisExpr => rfl
    | propAccess o p =>
      cases p with
      | mIdent t => simp [receiverHasName] at hr
      | mOther t => rfl
    | newExpr c a => rfl
    | call c t a => rfl
    | otherExpr => rfl
  refine ⟨hname, ?_, ?_⟩
  · rw [hname]
    rfl
  · intro fp mn tas args chain pos acc hmn
    simp only [processPotentialBusUsage]
    rw [if_pos hmn, hname]
    rfl

/-- Witness for C10: `this.execute(x)` records nothing. -/
theorem c10_nameless_receiver_skipped_witness :
    processPotentialBusUsage "a.ts"
      ⟨Expr.propAccess Expr.thisExpr (MemberName.mIdent "execute"),
        [], [Expr.ident "x"], [], ⟨0, 0⟩⟩ [] = [] :=
  (c10_nameless_receiver_skipped Expr.thisExpr (by decide)).2.2 "a.ts"
    "execute" [] [Expr.ident "x"] [] ⟨0, 0⟩ [] (by decide)

/-! ## C5: ancestor-chain lookups.

`specFirstNamedClass` and `specFirstIdentMethod` follow the words of the
spec ("class lookup stops at the first class declaration with a name; method
lookup stops at the first method declaration with an identifier name"), to
be compared with the source's `findParentClass`/`findMethodName`. -/

def specFirstNamedClass : List AncNode → Option String
  | [] => none
  | AncNode.classDecl (some n) :: _ => some n
  | _ :: rest => specFirstNamedClass rest

def specFirstIdentMethod : List AncNode → Option String
  | [] => none
  | AncNode.methodDecl (some (MemberName.mIdent n)) :: _ => some n
  | _ :: rest => specFirstIdentMethod rest

/-- First method declaration in the chain that has a name at all. -/
def firstNamedMethod : List AncNode → Option MemberName
  | [] => none
  | AncNode.methodDecl (some mn) :: _ => some mn
  | _ :: rest => firstNamedMethod rest

def identText : MemberName → Option String
  | MemberName.mIdent n => some n
  | MemberName.mOther _ => none

/-- A chain on which the spec's method-lookup description and the code
disagree: a call inside a computed-name method of a class expression that
itself sits inside identifier-named method `m` of class `Outer`. -/
def c5Chain : List AncNode :=
  [AncNode.methodDecl (some (MemberName.mOther "computed")),
   AncNode.classDecl (some "Inner"),
   AncNode.methodDecl (some (MemberName.mIdent "m")),
   AncNode.classDecl (some "Outer")]

/-- C5 counterexample: `findMethodName` does not stop at the first method
declaration with an identifier name — on `c5Chain` it stops at the computed
name and returns nothing, while the claimed rule would return "m". -/
theorem c5_ancestor_lookup_counterexample :
    ¬(findMethodName c5Chain = specFirstIdentMethod c5Chain) := by decide

/-- C5 amended: the class lookup returns the first class declaration that
has a name; the method lookup stops at the first method declaration that has
a name, yielding that name only when it is an identifier (absent otherwise);
every edge appended by bus-usage extraction gets className
`findParentClass ... or "Unknown"` and methodName `findMethodName ...`
(absent, not a sentinel, when there is no enclosing identifier-named method
at the stopping point). -/
theorem c5_ancestor_lookup_amended :
    (∀ chain, findParentClass chain = specFirstNamedClass chain) ∧
    (∀ chain, findMethodName chain = (firstNamedMethod chain).bind identText) ∧
    (∀ (fp : String) (node : CallNode) (acc : List BusUsage) (e : BusUsage),
      e ∈ processPotentialBusUsage fp node acc →
      e ∈ acc ∨
        (e.className = (findParentClass node.chain).getD ("Unknown") ∧
         e.methodName = findMethodName node.chain)) := by
  refine ⟨?_, ?_, ?_⟩
  · intro chain
    induction chain with
    | nil => rfl
    | cons hd rest ih =>
      cases hd with
      | classDecl n =>
        cases n with
        | some v => rfl
        | none => simpa [findParentClass, specFirstNamedClass] using ih
      | methodDecl n => simpa [findParentClass, specFirstNamedClass] using ih
      | otherNode => simpa [findParentClass, specFirstNamedClass] using ih
  · intro chain
    induction chain with
    | nil => rfl
    | cons hd rest ih =>
      cases hd with
      | classDecl n => simpa [findMethodName, firstNamedMethod] using ih
      | methodDecl n =>
        cases n with
        | some mn =>
          cases mn with
          | mIdent t => rfl
          | mOther t => rfl
        | none => simpa [findMethodName, firstNamedMethod] using ih
      | otherNode => simpa [findMethodName, firstNamedMethod] using ih
  · intro fp node acc e he
    rcases node with ⟨callee, tas, args, chain, pos⟩
    cases callee with
    | propAccess receiver p =>
      cases p with
      | mIdent mn =>
        simp only [processPotentialBusUsage] at he
        by_cases hmn : mn ∈ ["publish", "execute", "dispatch"]
        · rw [if_pos hmn] at he
          cases hbt : determineBusType (getObjectName receiver) with
          | none =>
            rw [hbt] at he
            exact Or.inl he
          | some bt =>
            rw [hbt] at he
            rcases List.mem_append.1 he with h | h
            · exact Or.inl h
            · rcases List.mem_singleton.1 h with rfl
              exact Or.inr ⟨rfl, rfl⟩
        · rw [if_neg hmn] at he
          exact Or.inl he
      | mOther t => exact Or.inl he
    | ident n => exact Or.inl he
    | thisExpr => exact Or.inl he
    | newExpr c a => exact Or.inl he
    | call c t a => exact Or.inl he
    | otherExpr => exact Or.inl he

/-- Witness for C5 amended, at the Scenario-1 call node. -/
theorem c5_ancestor_lookup_amended_witness :
    (⟨"order.service.ts", "OrderService", some "placeOrder",
        BusType.CommandBus, "CreateOrderCommand", ⟨10, 4⟩⟩ : BusUsage) ∈
        ([] : List BusUsage) ∨
      ("OrderService" = (findParentClass scenario1Node.chain).getD ("Unknown") ∧
       some "placeOrder" = findMethodName scenario1Node.chain) :=
  c5_ancestor_lookup_amended.2.2 "order.service.ts" scenario1Node []
    ⟨"order.service.ts", "OrderService", some "placeOrder",
      BusType.CommandBus, "CreateOrderCommand", ⟨10, 4⟩⟩ (by decide)

/-! ## Handler-declaration extraction (processHandlerDeclaration,
src/file-analyzer/index.ts lines 223-307).

Path A re-renders the class text and scans it with the pattern
`@(QueryHandler|CommandHandler|EventsHandler)\s*\(([^)]*)\)` (all matches,
resuming after each match, as `matchAll` does); Path B walks the structured
decorator list when the host exposes one. -/

/-- JS `\s` on the characters that occur in source text: space, tab,
newline, carriage return, vertical tab, form feed. -/
def isJsSpace (c : Char) : Bool :=
  c = ' ' || c = '\t' || c = '\n' || c = '\r' || c.toNat = 11 || c.toNat = 12

/-- Consume `([^)]*)\)`: the characters up to and including the first
closing parenthesis; `none` when no closing parenthesis follows. -/
def takeArgs : List Char → Option (List Char × List Char)
  | [] => none
  | c :: rest =>
    if c = ')' then some ([], rest)
    else
      match takeArgs rest with
      | some (args, r) => some (c :: args, r)
      | none => none

/-- The alternation `(QueryHandler|CommandHandler|EventsHandler)` at the
current position, in the pattern's order. -/
def tryHandlerName (l : List Char) : Option (HandlerType × List Char) :=
  if ("QueryHandler".toList).isPrefixOf l then
    some (HandlerType.QueryHandler, l.drop 12)
  else if ("CommandHandler".toList).isPrefixOf l then
    some (HandlerType.CommandHandler, l.drop 14)
  else if ("EventsHandler".toList).isPrefixOf l then
    some (HandlerType.EventsHandler, l.drop 13)
  else none

/-- Match `(QueryHandler|CommandHandler|EventsHandler)\s*\(([^)]*)\)` just
after an `@`, yielding the handler kind, the argument text and the rest of
the input after the match. -/
def tryDecorator (l : List Char) : Option (HandlerType × List Char × List Char) :=
  match tryHandlerName l with
  | none => none
  | some (ht, r1) =>
    match r1.dropWhile isJsSpace with
    | '(' :: r3 =>
      match takeArgs r3 with
      | some (args, r4) => some (ht, args, r4)
      | none => none
    | _ => none

/-- All matches of the decorator pattern, scanning left to right and
resuming after the end of each match (`String.prototype.matchAll`).  The
fuel starts at the input length and strictly dominates it throughout, so it
never runs out. -/
def scanDecoratorsAux : Nat → List Char → List (HandlerType × List Char)
  | 0, _ => []
  | _ + 1, [] => []
  | fuel + 1, c :: rest =>
    if c = '@' then
      match tryDecorator rest with
      | some (ht, args, r) => (ht, args) :: scanDecoratorsAux fuel r
      | none => scanDecoratorsAux fuel rest
    else scanDecoratorsAux fuel rest

def scanDecorators (l : List Char) : List (HandlerType × List Char) :=
  scanDecoratorsAux l.length l

/-- `[A-Za-z0-9_]`. -/
def isWordChar (c : Char) : Bool :=
  (('A' ≤ c && c ≤ 'Z') || ('a' ≤ c && c ≤ 'z') ||
    ('0' ≤ c && c ≤ '9') || c = '_')

/-- `argsText.trim()`. -/
def jsTrim (l : List Char) : List Char :=
  ((l.dropWhile isJsSpace).reverse.dropWhile isJsSpace).reverse

/-- The first match of `/([A-Za-z0-9_]+)/`: the leftmost maximal nonempty
run of word characters, if any. -/
def firstWordRun (l : List Char) : Option (List Char) :=
  match (l.dropWhile (fun c => !(isWordChar c))).takeWhile isWordChar with
  | [] => none
  | r => some r

/-- Path A event type: `'Unknown'` unless the trimmed argument text contains
a word-character run, in which case that first run. -/
def eventTypeFromArgs (argsText : List Char) : String :=
  match firstWordRun (jsTrim argsText) with
  | some run => String.mk run
  | none => "Unknown"

/-- A class declaration as seen by `processHandlerDeclaration`: its name (if
any), its re-rendered source text (`node.getText(sourceFile)`), the
structured decorator expressions when the host API exposes them (`none`
models `ts.getDecorators` being unavailable, failing, or returning
nothing), and the node's position. -/
structure ClassNode where
  name : Option String
  text : List Char
  decorators : Option (List Expr)
  pos : LineAndCharacter

/-- The decorator-name test of Path B:
`decoratorName !== 'QueryHandler' && ... && decoratorName !== 'EventsHandler'
→ continue`. -/
def handlerTypeOfName (s : String) : Option HandlerType :=
  if s = "QueryHandler" then some HandlerType.QueryHandler
  else if s = "CommandHandler" then some HandlerType.CommandHandler
  else if s = "EventsHandler" then some HandlerType.EventsHandler
  else none

/-- The duplicate check of Path B:
`result.handlerDeclarations.some(h => h.className === className &&
h.handlerType === handlerType)`. -/
def hasHandlerEdge (acc : List HandlerDeclaration) (className : String)
    (ht : HandlerType) : Bool :=
  acc.any (fun h => decide (h.className = className ∧ h.handlerType = ht))

/-- One Path B decorator: recognize a call of an identifier naming one of
the three handler kinds, extract the event type with
`extractTypeArgument`, and append an edge unless one with the same
(className, handlerType) pair is already present. -/
def processDecorator (fp className : String) (pos : LineAndCharacter)
    (acc : List HandlerDeclaration) (d : Expr) : List HandlerDeclaration :=
  match d with
  | Expr.call (Expr.ident decoratorName) tas dargs =>
    match handlerTypeOfName decoratorName with
    | some ht =>
      if hasHandlerEdge acc className ht then acc
      else acc ++ [⟨fp, className, ht, extractTypeArgument tas dargs, pos⟩]
    | none => acc
  | _ => acc

/-- `processHandlerDeclaration`: skip unnamed classes; append every Path A
(lexical scan) match; then, when structured decorators are available, run
Path B over them with duplicate suppression. -/
def processHandlerDeclaration (fp : String) (c : ClassNode)
    (acc : List HandlerDeclaration) : List HandlerDeclaration :=
  match c.name with
  | none => acc
  | some className =>
    let afterA := acc ++ (scanDecorators c.text).map
      (fun p => ⟨fp, className, p.1, eventTypeFromArgs p.2, c.pos⟩)
    match c.decorators with
    | none => afterA
    | some ds => ds.foldl (processDecorator fp className c.pos) afterA

/-- The Path-B-recognizable handler kind of a decorator expression. -/
def decoratorKind : Expr → Option HandlerType
  | Expr.call (Expr.ident n) _ _ => handlerTypeOfName n
  | _ => none

theorem filter_eq_nil_of_no_edge (acc : List HandlerDeclaration) (cn : String)
    (k : HandlerType) (h : hasHandlerEdge acc cn k = false) :
    acc.filter (fun e => decide (e.className = cn ∧ e.handlerType = k)) = [] := by
  rw [List.filter_eq_nil_iff]
  intro a ha
  unfold hasHandlerEdge at h
  rw [List.any_eq_false] at h
  simpa using h a ha

theorem processDecorator_step (fp cn : String) (pos : LineAndCharacter)
    (d : Expr) (acc : List HandlerDeclaration) (k : HandlerType)
    (hacc : hasHandlerEdge acc cn k = true) :
    hasHandlerEdge (processDecorator fp cn pos acc d) cn k = true ∧
    (processDecorator fp cn pos acc d).filter
      (fun e => decide (e.className = cn ∧ e.handlerType = k)) =
      acc.filter (fun e => decide (e.className = cn ∧ e.handlerType = k)) := by
  cases d with
  | ident n => exact ⟨hacc, rfl⟩
  | thisExpr => exact ⟨hacc, rfl⟩
  | propAccess o p => exact ⟨hacc, rfl⟩
  | newExpr c a => exact ⟨hacc, rfl⟩
  | otherExpr => exact ⟨hacc, rfl⟩
  | call callee tas dargs =>
    cases callee with
    | thisExpr => exact ⟨hacc, rfl⟩
    | propAccess o p => exact ⟨hacc, rfl⟩
    | newExpr c a => exact ⟨hacc, rfl⟩
    | call c2 t2 a2 => exact ⟨hacc, rfl⟩
    | otherExpr => exact ⟨hacc, rfl⟩
    | ident n =>
      cases hk : handlerTypeOfName n with
      | none =>
        constructor
        · simpa [processDecorator, hk] using hacc
        · simp [processDecorator, hk]
      | some ht =>
        have hred : processDecorator fp cn pos acc
            (Expr.call (Expr.ident n) tas dargs) =
            if hasHandlerEdge acc cn ht = true then acc
            else acc ++ [⟨fp, cn, ht, extractTypeArgument tas dargs, pos⟩] := by
          simp only [processDecorator, hk]
        rw [hred]
        by_cases hex : hasHandlerEdge acc cn ht = true
        · rw [if_pos hex]
          exact ⟨hacc, rfl⟩
        · rw [if_neg hex]
          have hne : ht ≠ k := by
            intro he
            rw [he] at hex
            exact hex hacc
          constructor
          · unfold hasHandlerEdge at hacc ⊢
            rw [List.any_append, hacc, Bool.true_or]
          · rw [List.filter_append]
            have hone : (([⟨fp, cn, ht, extractTypeArgument tas dargs, pos⟩] :
                List HandlerDeclaration).filter
                (fun e => decide (e.className = cn ∧ e.handlerType = k))) = [] := by
              simp [hne]
            rw [hone, List.append_nil]

theorem foldl_processDecorator_filter (fp cn : String) (pos : LineAndCharacter)
    (k : HandlerType) :
    ∀ (ds : List Expr) (acc : List HandlerDeclaration),
      hasHandlerEdge acc cn k = true →
      (ds.foldl (processDecorator fp cn pos) acc).filter
        (fun e => decide (e.className = cn ∧ e.handlerType = k)) =
        acc.filter (fun e => decide (e.className = cn ∧ e.handlerType = k))
  | [], acc, hacc => rfl
  | d :: rest, acc, hacc => by
    have hstep := processDecorator_step fp cn pos d acc k hacc
    show (rest.foldl _ (processDecorator fp cn pos acc d)).filter _ = _
    rw [foldl_processDecorator_filter fp cn pos k rest _ hstep.1, hstep.2]

/-- C1: when the accumulated result has no edge keyed (cn, k), Path A's
lexical scan finds exactly one handler of kind `k` (with argument text
`args`), and the structured decorator list contains a Path-B-recognizable
decorator of the same kind, the processed result contains exactly one edge
for the (cn, k) pair and its eventType is the one Path A inferred from
`args` — whatever event type Path B would have inferred. -/
theorem c1_path_b_duplicate_suppression (fp cn : String) (c : ClassNode)
    (acc : List HandlerDeclaration) (k : HandlerType) (args : List Char)
    (ds : List Expr)
    (hn : c.name = some cn)
    (hacc : hasHandlerEdge acc cn k = false)
    (hscan : (scanDecorators c.text).filter (fun p => decide (p.1 = k)) =
      [(k, args)])
    (hds : c.decorators = some ds)
    (_hdet : ∃ d ∈ ds, decoratorKind d = some k) :
    (processHandlerDeclaration fp c acc).filter
      (fun e => decide (e.className = cn ∧ e.handlerType = k)) =
      [⟨fp, cn, k, eventTypeFromArgs args, c.pos⟩] := by
  have hmain : processHandlerDeclaration fp c acc =
      ds.foldl (processDecorator fp cn c.pos)
        (acc ++ (scanDecorators c.text).map
          (fun p => ⟨fp, cn, p.1, eventTypeFromArgs p.2, c.pos⟩)) := by
    simp only [processHandlerDeclaration, hn, hds]
  rw [hmain]
  have hA : ((scanDecorators c.text).map
      (fun p => (⟨fp, cn, p.1, eventTypeFromArgs p.2, c.pos⟩ :
        HandlerDeclaration))).filter
      (fun e => decide (e.className = cn ∧ e.handlerType = k)) =
      [⟨fp, cn, k, eventTypeFromArgs args, c.pos⟩] := by
    rw [List.filter_map]
    have hcomp : ((fun e => decide (e.className = cn ∧ e.handlerType = k)) ∘
        fun p => (⟨fp, cn, p.1, eventTypeFromArgs p.2, c.pos⟩ :
          HandlerDeclaration)) =
        fun (p : HandlerType × List Char) => decide (p.1 = k) := by
      funext p
      simp
    rw [hcomp, hscan]
    rfl
  have hafterA : (acc ++ (scanDecorators c.text).map
      (fun p => (⟨fp, cn, p.1, eventTypeFromArgs p.2, c.pos⟩ :
        HandlerDeclaration))).filter
      (fun e => decide (e.className = cn ∧ e.handlerType = k)) =
      [⟨fp, cn, k, eventTypeFromArgs args, c.pos⟩] := by
    rw [List.filter_append, filter_eq_nil_of_no_edge acc cn k hacc,
      List.nil_append, hA]
  have hmem : (⟨fp, cn, k, eventTypeFromArgs args, c.pos⟩ :
      HandlerDeclaration) ∈ acc ++ (scanDecorators c.text).map
      (fun p => (⟨fp, cn, p.1, eventTypeFromArgs p.2, c.pos⟩ :
        HandlerDeclaration)) := by
    have : (⟨fp, cn, k, eventTypeFromArgs args, c.pos⟩ :
        HandlerDeclaration) ∈ (acc ++ (scanDecorators c.text).map
        (fun p => (⟨fp, cn, p.1, eventTypeFromArgs p.2, c.pos⟩ :
          HandlerDeclaration))).filter
        (fun e => decide (e.className = cn ∧ e.handlerType = k)) := by
      rw [hafterA]
      exact List.mem_singleton.mpr rfl
    exact List.mem_of_mem_filter this
  have hhas : hasHandlerEdge (acc ++ (scanDecorators c.text).map
      (fun p => (⟨fp, cn, p.1, eventTypeFromArgs p.2, c.pos⟩ :
        HandlerDeclaration))) cn k = true := by
    unfold hasHandlerEdge
    rw [List.any_eq_true]
    exact ⟨_, hmem, by simp⟩
  rw [foldl_processDecorator_filter fp cn c.pos k ds _ hhas, hafterA]

/-- Witness for C1: class `OrderHandler` whose text carries
`@CommandHandler(CreateOrderCommand)` and whose structured decorator list
reports the same kind with a different event type (`OtherEvent`); the result
keeps exactly Path A's edge. -/
theorem c1_path_b_duplicate_suppression_witness :
    (processHandlerDeclaration "h.ts"
      ⟨some "OrderHandler", ("@CommandHandler(CreateOrderCommand)".toList),
        some [Expr.call (Expr.ident "CommandHandler") []
          [Expr.ident "OtherEvent"]], ⟨1, 0⟩⟩ []).filter
      (fun e => decide (e.className = "OrderHandler" ∧
        e.handlerType = HandlerType.CommandHandler)) =
      [⟨"h.ts", "OrderHandler", HandlerType.CommandHandler,
        eventTypeFromArgs ("CreateOrderCommand".toList), ⟨1, 0⟩⟩] :=
  c1_path_b_duplicate_suppression "h.ts" "OrderHandler"
    ⟨some "OrderHandler", ("@CommandHandler(CreateOrderCommand)".toList),
      some [Expr.call (Expr.ident "CommandHandler") []
        [Expr.ident "OtherEvent"]], ⟨1, 0⟩⟩
    [] HandlerType.CommandHandler ("CreateOrderCommand".toList)
    [Expr.call (Expr.ident "CommandHandler") [] [Expr.ident "OtherEvent"]]
    rfl (by decide) (by decide) rfl
    ⟨Expr.call (Expr.ident "CommandHandler") [] [Expr.ident "OtherEvent"],
      List.mem_singleton.mpr rfl, by decide⟩

/-! ## C9: eventType is never the empty string.

A parsed syntax tree only carries nonempty identifier texts and nonempty
type-argument texts (an identifier or type node always spans at least one
source character); the `wf` predicates below state exactly that for the
pieces `extractTypeArgument` inspects. -/

def wfTypeArgs (tas : List String) : Bool :=
  tas.all (fun t => !t.isEmpty)

def wfArgHead : List Expr → Bool
  | [] => true
  | Expr.newExpr (Expr.ident n) _ :: _ => !n.isEmpty
  | Expr.ident n :: _ => !n.isEmpty
  | Expr.propAccess _ (MemberName.mIdent n) :: _ => !n.isEmpty
  | _ :: _ => true

def wfCallNode (node : CallNode) : Bool :=
  wfTypeArgs node.typeArgs && wfArgHead node.args

def wfDecorator : Expr → Bool
  | Expr.call _ tas dargs => wfTypeArgs tas && wfArgHead dargs
  | _ => true

def wfClassNode (c : ClassNode) : Bool :=
  match c.decorators with
  | none => true
  | some ds => ds.all wfDecorator

theorem ne_empty_of_isEmpty_false (s : String) (h : s.isEmpty = false) :
    s ≠ "" := by
  intro he
  subst he
  exact absurd h (by decide)

theorem extractTypeArgument_ne_empty :
    ∀ (tas : List String) (args : List Expr),
      wfTypeArgs tas = true → wfArgHead args = true →
      extractTypeArgument tas args ≠ ""
  | t :: rest, args, h1, _ => by
    have ht : t.isEmpty = false := by
      have := List.all_eq_true.mp h1 t (List.mem_cons_self t rest)
      simpa using this
    simpa [extractTypeArgument] using ne_empty_of_isEmpty_false t ht
  | [], [], _, _ => by decide
  | [], hd :: rest, _, h2 => by
    have hu : ("Unknown" : String) ≠ "" := by decide
    cases hd with
    | ident n =>
      have hn : n.isEmpty = false := by simpa [wfArgHead] using h2
      simpa [extractTypeArgument] using ne_empty_of_isEmpty_false n hn
    | thisExpr => exact hu
    | propAccess o p =>
      cases p with
      | mIdent n =>
        have hn : n.isEmpty = false := by simpa [wfArgHead] using h2
        simpa [extractTypeArgument] using ne_empty_of_isEmpty_false n hn
      | mOther t => exact hu
    | newExpr c a =>
      cases c with
      | ident n =>
        have hn : n.isEmpty = false := by simpa [wfArgHead] using h2
        simpa [extractTypeArgument] using ne_empty_of_isEmpty_false n hn
      | thisExpr => exact hu
      | propAccess o p => exact hu
      | newExpr c2 a2 => exact hu
      | call c2 t2 a2 => exact hu
      | otherExpr => exact hu
    | call c t a => exact hu
    | otherExpr => exact hu

theorem firstWordRun_ne_nil (l r : List Char) (h : firstWordRun l = some r) :
    r ≠ [] := by
  unfold firstWordRun at h
  cases htw : (l.dropWhile (fun c => !(isWordChar c))).takeWhile isWordChar with
  | nil =>
    rw [htw] at h
    cases h
  | cons c t =>
    rw [htw] at h
    cases h
    simp

theorem eventTypeFromArgs_ne_empty (argsText : List Char) :
    eventTypeFromArgs argsText ≠ "" := by
  unfold eventTypeFromArgs
  cases hf : firstWordRun (jsTrim argsText) with
  | none => decide
  | some run =>
    have hr := firstWordRun_ne_nil _ _ hf
    intro he
    apply hr
    have := congrArg String.data he
    simpa using this

theorem mem_processDecorator (fp cn : String) (pos : LineAndCharacter)
    (d : Expr) (acc : List HandlerDeclaration) (e : HandlerDeclaration)
    (hwf : wfDecorator d = true)
    (he : e ∈ processDecorator fp cn pos acc d) :
    e ∈ acc ∨ e.eventType ≠ "" := by
  cases d with
  | ident n => exact Or.inl he
  | thisExpr => exact Or.inl he
  | propAccess o p => exact Or.inl he
  | newExpr c a => exact Or.inl he
  | otherExpr => exact Or.inl he
  | call callee tas dargs =>
    have hwf' : wfTypeArgs tas = true ∧ wfArgHead dargs = true := by
      simpa [wfDecorator, Bool.and_eq_true] using hwf
    cases callee with
    | thisExpr => exact Or.inl he
    | propAccess o p => exact Or.inl he
    | newExpr c a => exact Or.inl he
    | call c2 t2 a2 => exact Or.inl he
    | otherExpr => exact Or.inl he
    | ident n =>
      simp only [processDecorator] at he
      cases hk : handlerTypeOfName n with
      | none =>
        simp only [hk] at he
        exact Or.inl he
      | some ht =>
        simp only [hk] at he
        by_cases hex : hasHandlerEdge acc cn ht = true
        · rw [if_pos hex] at he
          exact Or.inl he
        · rw [if_neg hex] at he
          rcases List.mem_append.1 he with h | h
          · exact Or.inl h
          · rcases List.mem_singleton.1 h with rfl
            exact Or.inr (extractTypeArgument_ne_empty tas dargs hwf'.1 hwf'.2)

theorem mem_foldl_processDecorator (fp cn : String) (pos : LineAndCharacter) :
    ∀ (ds : List Expr) (acc : List HandlerDeclaration)
      (e : HandlerDeclaration),
      (∀ d ∈ ds, wfDecorator d = true) →
      e ∈ ds.foldl (processDecorator fp cn pos) acc →
      e ∈ acc ∨ e.eventType ≠ ""
  | [], acc, e, _, he => Or.inl he
  | d :: rest, acc, e, hwf, he => by
    have hrest := mem_foldl_processDecorator fp cn pos rest
      (processDecorator fp cn pos acc d) e
      (fun d' hd' => hwf d' (List.mem_cons_of_mem d hd')) he
    rcases hrest with h | h
    · exact mem_processDecorator fp cn pos d acc e
        (hwf d (List.mem_cons_self d rest)) h
    · exact Or.inr h

/-- C9: every edge appended by extraction carries a non-empty eventType.
For bus usages and Path B this holds whenever the parsed tree is
well-formed (identifier and type-argument source texts are non-empty, which
a parser guarantees for matched source); for Path A it is unconditional,
the word-run regex never producing an empty token and the sentinel
"Unknown" standing in otherwise. -/
theorem c9_event_type_never_empty :
    (∀ (fp : String) (node : CallNode) (acc : List BusUsage) (e : BusUsage),
      wfCallNode node = true →
      e ∈ processPotentialBusUsage fp node acc →
      e ∈ acc ∨ e.eventType ≠ "") ∧
    (∀ (fp : String) (c : ClassNode) (acc : List HandlerDeclaration)
        (e : HandlerDeclaration),
      wfClassNode c = true →
      e ∈ processHandlerDeclaration fp c acc →
      e ∈ acc ∨ e.eventType ≠ "") := by
  constructor
  · intro fp node acc e hwf he
    rcases node with ⟨callee, tas, args, chain, pos⟩
    have hwf' : wfTypeArgs tas = true ∧ wfArgHead args = true := by
      simpa [wfCallNode, Bool.and_eq_true] using hwf
    cases callee with
    | propAccess receiver p =>
      cases p with
      | mIdent mn =>
        simp only [processPotentialBusUsage] at he
        by_cases hmn : mn ∈ ["publish", "execute", "dispatch"]
        · rw [if_pos hmn] at he
          cases hbt : determineBusType (getObjectName receiver) with
          | none =>
            rw [hbt] at he
            exact Or.inl he
          | some bt =>
            rw [hbt] at he
            rcases List.mem_append.1 he with h | h
            · exact Or.inl h
            · rcases List.mem_singleton.1 h with rfl
              exact Or.inr (extractTypeArgument_ne_empty tas args hwf'.1 hwf'.2)
        · rw [if_neg hmn] at he
          exact Or.inl he
      | mOther t => exact Or.inl he
    | ident n => exact Or.inl he
    | thisExpr => exact Or.inl he
    | newExpr c a => exact Or.inl he
    | call c t a => exact Or.inl he
    | otherExpr => exact Or.inl he
  · intro fp c acc e hwf he
    rcases c with ⟨name, text, decorators, pos⟩
    cases name with
    | none => exact Or.inl he
    | some cn =>
      have hafterA : ∀ e' : HandlerDeclaration,
          e' ∈ acc ++ (scanDecorators text).map
            (fun p => ⟨fp, cn, p.1, eventTypeFromArgs p.2, pos⟩) →
          e' ∈ acc ∨ e'.eventType ≠ "" := by
        intro e' he'
        rcases List.mem_append.1 he' with h | h
        · exact Or.inl h
        · rcases List.mem_map.1 h with ⟨p, _, rfl⟩
          exact Or.inr (eventTypeFromArgs_ne_empty p.2)
      cases decorators with
      | none => exact hafterA e he
      | some ds =>
        have hwfds : ∀ d ∈ ds, wfDecorator d = true := by
          intro d hd
          exact List.all_eq_true.mp (by simpa [wfClassNode] using hwf) d hd
        rcases mem_foldl_processDecorator fp cn pos ds _ e hwfds he with h | h
        · exact hafterA e h
        · exact Or.inr h

/-- Witness for C9 at the Scenario-1 bus usage. -/
theorem c9_event_type_never_empty_witness :
    (⟨"order.service.ts", "OrderService", some "placeOrder",
        BusType.CommandBus, "CreateOrderCommand", ⟨10, 4⟩⟩ : BusUsage) ∈
        ([] : List BusUsage) ∨
      ("CreateOrderCommand" : String) ≠ "" :=
  c9_event_type_never_empty.1 "order.service.ts" scenario1Node []
    ⟨"order.service.ts", "OrderService", some "placeOrder",
      BusType.CommandBus, "CreateOrderCommand", ⟨10, 4⟩⟩
    (by decide) (by decide)

/-! ## Architecture analyzer (analyzeArchitecture,
src/architecture-analyzer/index.ts lines 13-169).

JS `Set` and `Map` preserve insertion order and are modelled as lists of
keys resp. association lists: `set` on a present key updates in place,
otherwise appends. -/

/-- `Set.add`: append the key if absent. -/
def insertUniq (s : List String) (k : String) : List String :=
  if s.contains k then s else s ++ [k]

def setOfList (l : List String) : List String :=
  l.foldl insertUniq []

/-- `map.set(k, (map.get(k) || 0) + 1)`. -/
def bumpCount : List (String × Nat) → String → List (String × Nat)
  | [], k => [(k, 1)]
  | (k', n) :: rest, k =>
    if k' = k then (k', n + 1) :: rest else (k', n) :: bumpCount rest k

/-- `if (!map.has(k)) map.set(k, []); map.get(k)?.push(v)`. -/
def pushMulti : List (String × List String) → String → String →
    List (String × List String)
  | [], k, v => [(k, [v])]
  | (k', vs) :: rest, k, v =>
    if k' = k then (k', vs ++ [v]) :: rest else (k', vs) :: pushMulti rest k v

def mapKeys {γ : Type} (m : List (String × γ)) : List String :=
  m.map (·.1)

/-- `map.get(k)` (`none` = `undefined`). -/
def mget {γ : Type} (m : List (String × γ)) (k : String) : Option γ :=
  (m.find? (fun p => decide (p.1 = k))).map (·.2)

def buildMulti {β : Type} (key val : β → String) (l : List β) :
    List (String × List String) :=
  l.foldl (fun m b => pushMulti m (key b) (val b)) []

/-- `busUsers`: distinct classNames of bus usages, insertion order. -/
def busUsers (r : AnalysisResult) : List String :=
  setOfList (r.busUsages.map BusUsage.className)

/-- `handlerClasses`: distinct classNames of handler declarations. -/
def handlerClasses (r : AnalysisResult) : List String :=
  setOfList (r.handlerDeclarations.map HandlerDeclaration.className)

/-- `dualRoleClasses`: busUsers also appearing among handlerClasses. -/
def dualRoleClasses (r : AnalysisResult) : List String :=
  (busUsers r).filter (fun c => (handlerClasses r).contains c)

/-- `classCouplingCount`: per-class edge counts, bus usages first. -/
def classCouplingCount (r : AnalysisResult) : List (String × Nat) :=
  (r.busUsages.map BusUsage.className ++
    r.handlerDeclarations.map HandlerDeclaration.className).foldl bumpCount []

/-- `highCouplingClasses`: entries with more than 5 connections. -/
def highCouplingClasses (r : AnalysisResult) : List (String × Nat) :=
  (classCouplingCount r).filter (fun p => p.2 > 5)

def eventEmitters (r : AnalysisResult) : List (String × List String) :=
  buildMulti BusUsage.eventType BusUsage.className r.busUsages

def eventHandlers (r : AnalysisResult) : List (String × List String) :=
  buildMulti HandlerDeclaration.eventType HandlerDeclaration.className
    r.handlerDeclarations

/-- `!m.has(k) || m.get(k)?.length === 0`. -/
def noEntries (m : List (String × List String)) (k : String) : Bool :=
  match mget m k with
  | none => true
  | some vs => vs.isEmpty

def unhandledEvents (r : AnalysisResult) : List String :=
  (((eventEmitters r).filter (fun p => noEntries (eventHandlers r) p.1)).map
    (fun p => p.1))

def orphanHandlers (r : AnalysisResult) : List String :=
  (((eventHandlers r).filter (fun p => noEntries (eventEmitters r) p.1)).map
    (fun p => p.1))

def totalConnections (r : AnalysisResult) : Nat :=
  ((classCouplingCount r).map (fun p => p.2)).sum

/-- `classCount > 0 ? totalConnections / classCount : 0`, over exact
rationals (JS numbers idealized). -/
def averageConnections (r : AnalysisResult) : ℚ :=
  if (classCouplingCount r).length > 0 then
    (totalConnections r : ℚ) / ((classCouplingCount r).length : ℚ)
  else 0

def allEventTypes (r : AnalysisResult) : List String :=
  setOfList (r.busUsages.map BusUsage.eventType ++
    r.handlerDeclarations.map HandlerDeclaration.eventType)

/-- `IssueSeverity` from src/types/index.ts. -/
inductive IssueSeverity where
  | info
  | warning
  | error
deriving DecidableEq

/-- The `context?: any` payloads actually attached by the analyzer. -/
inductive IssueContext where
  | noContext
  | coupling (cs : List (String × Nat))
  | events (es : List (String × List String))
deriving DecidableEq

/-- `ArchitectureIssue` from src/types/index.ts. -/
structure ArchitectureIssue where
  type : String
  severity : IssueSeverity
  description : String
  elements : List String
  context : IssueContext
deriving DecidableEq

structure Metrics where
  totalClasses : Nat
  totalEvents : Nat
  eventProducers : Nat
  eventConsumers : Nat
  dualRoleClasses : Nat
  orphanEvents : Nat
  orphanHandlers : Nat
  averageConnections : ℚ
deriving DecidableEq

/-- `ArchitectureAnalysisResult` from src/types/index.ts. -/
structure ArchitectureAnalysisResult where
  issues : List ArchitectureIssue
  metrics : Metrics
deriving DecidableEq

/-- `analyzeArchitecture`: the four conditional issues in source order,
then the metrics record. -/
def analyzeArchitecture (r : AnalysisResult) : ArchitectureAnalysisResult :=
  let issues :=
    (if (dualRoleClasses r).length > 0 then
      [⟨"SingleResponsibilityViolation", IssueSeverity.warning,
        "Classes that both produce and consume events may violate the Single Responsibility Principle",
        dualRoleClasses r, IssueContext.noContext⟩]
    else []) ++
    (if (highCouplingClasses r).length > 0 then
      [⟨"HighCoupling", IssueSeverity.warning,
        "Classes with too many connections may be difficult to maintain and test",
        (highCouplingClasses r).map (fun p => p.1),
        IssueContext.coupling (highCouplingClasses r)⟩]
    else []) ++
    (if (unhandledEvents r).length > 0 then
      [⟨"UnhandledEvents", IssueSeverity.error,
        "Events that are produced but not handled may indicate incomplete implementation",
        unhandledEvents r,
        IssueContext.events ((unhandledEvents r).map
          (fun e => (e, (mget (eventEmitters r) e).getD [])))⟩]
    else []) ++
    (if (orphanHandlers r).length > 0 then
      [⟨"OrphanHandlers", IssueSeverity.warning,
        "Handlers for events that are not produced may be dead code",
        orphanHandlers r,
        IssueContext.events ((orphanHandlers r).map
          (fun e => (e, (mget (eventHandlers r) e).getD [])))⟩]
    else [])
  { issues := issues
    metrics :=
      { totalClasses := (classCouplingCount r).length
        totalEvents := (allEventTypes r).length
        eventProducers := (busUsers r).length
        eventConsumers := (handlerClasses r).length
        dualRoleClasses := (dualRoleClasses r).length
        orphanEvents := (unhandledEvents r).length
        orphanHandlers := (orphanHandlers r).length
        averageConnections := averageConnections r } }

theorem sum_bumpCount (m : List (String × Nat)) (k : String) :
    ((bumpCount m k).map (fun p => p.2)).sum =
      ((m.map (fun p => p.2)).sum) + 1 := by
  induction m with
  | nil => rfl
  | cons hd rest ih =>
    rcases hd with ⟨k', n⟩
    by_cases h : k' = k
    · simp [bumpCount, h]
      omega
    · simp [bumpCount, h, ih]
      omega

theorem sum_foldl_bumpCount :
    ∀ (xs : List String) (m : List (String × Nat)),
      ((List.foldl bumpCount m xs).map (fun p => p.2)).sum =
        ((m.map (fun p => p.2)).sum) + xs.length
  | [], m => by simp
  | k :: rest, m => by
    rw [List.foldl_cons, sum_foldl_bumpCount rest (bumpCount m k),
      sum_bumpCount]
    simp
    omega

theorem mapKeys_bumpCount (m : List (String × Nat)) (k : String) :
    mapKeys (bumpCount m k) =
      if k ∈ mapKeys m then mapKeys m else mapKeys m ++ [k] := by
  induction m with
  | nil => simp [bumpCount, mapKeys]
  | cons hd rest ih =>
    rcases hd with ⟨k', n⟩
    by_cases h : k' = k
    · subst h
      have hmem : k' ∈ mapKeys ((k', n) :: rest) := by simp [mapKeys]
      rw [if_pos hmem]
      simp [bumpCount, mapKeys]
    · have hcons : mapKeys ((k', n) :: rest) = k' :: mapKeys rest := rfl
      have hstep : mapKeys (bumpCount ((k', n) :: rest) k) =
          k' :: mapKeys (bumpCount rest k) := by
        simp [bumpCount, h, mapKeys]
      rw [hstep, ih, hcons]
      by_cases hk : k ∈ mapKeys rest
      · rw [if_pos hk, if_pos (by simp [hk])]
      · rw [if_neg hk, if_neg ?hc]
        case hc =>
          intro hc
          rcases List.mem_cons.1 hc with he | he
          · exact h he.symm
          · exact hk he
        rfl

theorem keys_foldl_bumpCount :
    ∀ (xs : List String) (m : List (String × Nat)),
      mapKeys (List.foldl bumpCount m xs) =
        List.foldl insertUniq (mapKeys m) xs
  | [], m => rfl
  | k :: rest, m => by
    rw [List.foldl_cons, List.foldl_cons,
      keys_foldl_bumpCount rest (bumpCount m k), mapKeys_bumpCount]
    congr 1
    unfold insertUniq
    by_cases hk : k ∈ mapKeys m
    · rw [if_pos hk, if_pos (show (mapKeys m).contains k = true by
        simpa using hk)]
    · rw [if_neg hk, if_neg (show ¬(mapKeys m).contains k = true by
        simpa using hk)]

theorem mem_foldl_insertUniq :
    ∀ (xs acc : List String) (a : String),
      a ∈ List.foldl insertUniq acc xs ↔ a ∈ acc ∨ a ∈ xs
  | [], acc, a => by simp
  | k :: rest, acc, a => by
    rw [List.foldl_cons, mem_foldl_insertUniq rest (insertUniq acc k) a]
    unfold insertUniq
    by_cases hk : acc.contains k
    · rw [if_pos hk]
      have hm : k ∈ acc := by simpa using hk
      simp only [List.mem_cons]
      constructor
      · rintro (h | h)
        · exact Or.inl h
        · exact Or.inr (Or.inr h)
      · rintro (h | (rfl | h))
        · exact Or.inl h
        · exact Or.inl hm
        · exact Or.inr h
    · rw [if_neg hk]
      simp only [List.mem_append, List.mem_singleton, List.mem_cons]
      tauto

theorem nodup_foldl_insertUniq :
    ∀ (xs acc : List String), acc.Nodup →
      (List.foldl insertUniq acc xs).Nodup
  | [], _, h => h
  | k :: rest, acc, h => by
    rw [List.foldl_cons]
    apply nodup_foldl_insertUniq rest
    unfold insertUniq
    by_cases hk : acc.contains k
    · rwa [if_pos hk]
    · rw [if_neg hk]
      have hm : k ∉ acc := by simpa using hk
      simp [List.nodup_append, h, hm]

theorem length_eq_toFinset_card (xs : List String) :
    (List.foldl insertUniq [] xs).length = xs.toFinset.card := by
  have hnd := nodup_foldl_insertUniq xs [] List.nodup_nil
  have hmem : ∀ a, a ∈ List.foldl insertUniq [] xs ↔ a ∈ xs := by
    intro a
    rw [mem_foldl_insertUniq]
    simp
  have hfs : (List.foldl insertUniq [] xs).toFinset = xs.toFinset := by
    ext a
    simp [List.mem_toFinset, hmem]
  rw [← List.toFinset_card_of_nodup hnd, hfs]

/-- C7: the analyzer is total and yields the all-empty record on an empty
aggregate (no issues, zero metrics, zero average); the coupling-count sum it
averages equals the total number of edges; the number of coupling entries
equals the number of distinct class names carrying at least one edge; and
averageConnections is exactly that sum divided by that count, 0 when there
are no classes. -/
theorem c7_analyzer_totality_and_average :
    (analyzeArchitecture ⟨[], []⟩ =
      ⟨[], ⟨0, 0, 0, 0, 0, 0, 0, 0⟩⟩) ∧
    (∀ r : AnalysisResult, totalConnections r =
      r.busUsages.length + r.handlerDeclarations.length) ∧
    (∀ r : AnalysisResult, (classCouplingCount r).length =
      (r.busUsages.map BusUsage.className ++
        r.handlerDeclarations.map HandlerDeclaration.className).toFinset.card) ∧
    (∀ r : AnalysisResult,
      (analyzeArchitecture r).metrics.averageConnections =
        if (classCouplingCount r).length = 0 then 0
        else (totalConnections r : ℚ) / ((classCouplingCount r).length : ℚ)) := by
  refine ⟨rfl, ?_, ?_, ?_⟩
  · intro r
    unfold totalConnections classCouplingCount
    rw [sum_foldl_bumpCount]
    simp
  · intro r
    have hlen : (classCouplingCount r).length =
        (mapKeys (classCouplingCount r)).length := by
      simp [mapKeys]
    rw [hlen]
    unfold classCouplingCount
    rw [keys_foldl_bumpCount]
    exact length_eq_toFinset_card _
  · intro r
    show averageConnections r = _
    unfold averageConnections
    by_cases h : (classCouplingCount r).length = 0
    · simp [h]
    · rw [if_pos (by omega), if_neg h]

theorem mem_keys_pushMulti (m : List (String × List String)) (k v a : String) :
    a ∈ mapKeys (pushMulti m k v) ↔ a ∈ mapKeys m ∨ a = k := by
  induction m with
  | nil => simp [pushMulti, mapKeys]
  | cons hd rest ih =>
    rcases hd with ⟨k', vs⟩
    by_cases h : k' = k
    · subst h
      simp [pushMulti, mapKeys]
      tauto
    · simp only [pushMulti, if_neg h, mapKeys, List.map_cons,
        List.mem_cons] at ih ⊢
      rw [ih]
      tauto

theorem vals_pushMulti (m : List (String × List String)) (k v : String)
    (h : ∀ p ∈ m, p.2 ≠ []) :
    ∀ p ∈ pushMulti m k v, p.2 ≠ [] := by
  induction m with
  | nil =>
    intro p hp
    rcases List.mem_singleton.1 hp with rfl
    simp
  | cons hd rest ih =>
    rcases hd with ⟨k', vs⟩
    by_cases hkk : k' = k
    · subst hkk
      simp only [pushMulti, if_pos rfl]
      intro p hp
      rcases List.mem_cons.1 hp with rfl | hp'
      · simp
      · exact h p (List.mem_cons_of_mem _ hp')
    · simp only [pushMulti, if_neg hkk]
      intro p hp
      rcases List.mem_cons.1 hp with rfl | hp'
      · exact h _ (List.mem_cons_self _ _)
      · exact ih (fun q hq => h q (List.mem_cons_of_mem _ hq)) p hp'

theorem mem_keys_buildMulti_aux {β : Type} (key val : β → String) :
    ∀ (l : List β) (m : List (String × List String)) (a : String),
      a ∈ mapKeys (l.foldl (fun acc b => pushMulti acc (key b) (val b)) m) ↔
        a ∈ mapKeys m ∨ a ∈ l.map key
  | [], m, a => by simp
  | b :: rest, m, a => by
    rw [List.foldl_cons, mem_keys_buildMulti_aux key val rest _ a,
      mem_keys_pushMulti]
    simp only [List.map_cons, List.mem_cons]
    tauto

theorem mem_keys_buildMulti {β : Type} (key val : β → String) (l : List β)
    (a : String) :
    a ∈ mapKeys (buildMulti key val l) ↔ a ∈ l.map key := by
  rw [buildMulti, mem_keys_buildMulti_aux]
  simp [mapKeys]

theorem vals_buildMulti {β : Type} (key val : β → String) :
    ∀ (l : List β) (m : List (String × List String)),
      (∀ p ∈ m, p.2 ≠ []) →
      ∀ p ∈ l.foldl (fun acc b => pushMulti acc (key b) (val b)) m, p.2 ≠ []
  | [], _, h => h
  | b :: rest, m, h => by
    rw [List.foldl_cons]
    exact vals_buildMulti key val rest _ (vals_pushMulti m (key b) (val b) h)

theorem mget_eq_none_iff {γ : Type} (m : List (String × γ)) (k : String) :
    mget m k = none ↔ k ∉ mapKeys m := by
  unfold mget
  rw [Option.map_eq_none', List.find?_eq_none]
  constructor
  · intro h hk
    rcases List.mem_map.1 hk with ⟨p, hp, hpk⟩
    exact h p hp (by simpa using hpk)
  · intro h p hp
    simp only [decide_eq_true_eq]
    intro he
    exact h (List.mem_map.2 ⟨p, hp, he⟩)

theorem mget_some_mem {γ : Type} (m : List (String × γ)) (k : String) (vs : γ)
    (h : mget m k = some vs) : ∃ p ∈ m, p.2 = vs := by
  unfold mget at h
  cases hf : m.find? (fun p => decide (p.1 = k)) with
  | none =>
    rw [hf] at h
    cases h
  | some p =>
    rw [hf] at h
    cases h
    exact ⟨p, List.mem_of_find?_eq_some hf, rfl⟩

theorem noEntries_iff (m : List (String × List String)) (k : String)
    (hv : ∀ p ∈ m, p.2 ≠ []) :
    noEntries m k = true ↔ k ∉ mapKeys m := by
  unfold noEntries
  cases hm : mget m k with
  | none =>
    simp only [true_iff]
    exact (mget_eq_none_iff m k).mp hm
  | some vs =>
    rcases mget_some_mem m k vs hm with ⟨p, hp, hpv⟩
    have hvs : vs ≠ [] := hpv ▸ hv p hp
    have hk : k ∈ mapKeys m := by
      by_contra hk
      rw [← mget_eq_none_iff] at hk
      rw [hm] at hk
      cases hk
    constructor
    · intro he
      cases vs with
      | nil => exact absurd rfl hvs
      | cons c t => cases he
    · intro hk'
      exact absurd hk hk'

theorem emitters_vals_ne_nil (r : AnalysisResult) :
    ∀ p ∈ eventEmitters r, p.2 ≠ [] :=
  vals_buildMulti BusUsage.eventType BusUsage.className r.busUsages []
    (by intro p hp; cases hp)

theorem handlers_vals_ne_nil (r : AnalysisResult) :
    ∀ p ∈ eventHandlers r, p.2 ≠ [] :=
  vals_buildMulti HandlerDeclaration.eventType HandlerDeclaration.className
    r.handlerDeclarations [] (by intro p hp; cases hp)

theorem mem_unhandledEvents (r : AnalysisResult) (e : String) :
    e ∈ unhandledEvents r ↔
      e ∈ r.busUsages.map BusUsage.eventType ∧
      e ∉ r.handlerDeclarations.map HandlerDeclaration.eventType := by
  unfold unhandledEvents
  rw [List.mem_map]
  constructor
  · rintro ⟨p, hp, rfl⟩
    rw [List.mem_filter] at hp
    constructor
    · have hk : p.1 ∈ mapKeys (eventEmitters r) :=
        List.mem_map_of_mem _ hp.1
      exact (mem_keys_buildMulti _ _ _ _).mp hk
    · have hno := (noEntries_iff _ _ (handlers_vals_ne_nil r)).mp hp.2
      intro hmem
      exact hno ((mem_keys_buildMulti _ _ _ _).mpr hmem)
  · rintro ⟨h1, h2⟩
    have hk : e ∈ mapKeys (eventEmitters r) :=
      (mem_keys_buildMulti _ _ _ _).mpr h1
    rcases List.mem_map.1 hk with ⟨p, hp, hpe⟩
    refine ⟨p, ?_, hpe⟩
    rw [List.mem_filter]
    refine ⟨hp, ?_⟩
    rw [noEntries_iff _ _ (handlers_vals_ne_nil r), hpe]
    intro hkk
    exact h2 ((mem_keys_buildMulti _ _ _ _).mp hkk)

theorem mem_orphanHandlers (r : AnalysisResult) (e : String) :
    e ∈ orphanHandlers r ↔
      e ∈ r.handlerDeclarations.map HandlerDeclaration.eventType ∧
      e ∉ r.busUsages.map BusUsage.eventType := by
  unfold orphanHandlers
  rw [List.mem_map]
  constructor
  · rintro ⟨p, hp, rfl⟩
    rw [List.mem_filter] at hp
    constructor
    · have hk : p.1 ∈ mapKeys (eventHandlers r) :=
        List.mem_map_of_mem _ hp.1
      exact (mem_keys_buildMulti _ _ _ _).mp hk
    · have hno := (noEntries_iff _ _ (emitters_vals_ne_nil r)).mp hp.2
      intro hmem
      exact hno ((mem_keys_buildMulti _ _ _ _).mpr hmem)
  · rintro ⟨h1, h2⟩
    have hk : e ∈ mapKeys (eventHandlers r) :=
      (mem_keys_buildMulti _ _ _ _).mpr h1
    rcases List.mem_map.1 hk with ⟨p, hp, hpe⟩
    refine ⟨p, ?_, hpe⟩
    rw [List.mem_filter]
    refine ⟨hp, ?_⟩
    rw [noEntries_iff _ _ (emitters_vals_ne_nil r), hpe]
    intro hkk
    exact h2 ((mem_keys_buildMulti _ _ _ _).mp hkk)

/-- C8: unhandledEvents holds exactly the event types with a bus-usage edge
but no handler edge; orphanHandlers exactly those with a handler edge but no
bus-usage edge; no event type is in both, and the analyzer's issue counters
are the sizes of these two lists. -/
theorem c8_unhandled_orphan_disjoint (r : AnalysisResult) (e : String) :
    (e ∈ unhandledEvents r ↔
      e ∈ r.busUsages.map BusUsage.eventType ∧
      e ∉ r.handlerDeclarations.map HandlerDeclaration.eventType) ∧
    (e ∈ orphanHandlers r ↔
      e ∈ r.handlerDeclarations.map HandlerDeclaration.eventType ∧
      e ∉ r.busUsages.map BusUsage.eventType) ∧
    ¬(e ∈ unhandledEvents r ∧ e ∈ orphanHandlers r) ∧
    (analyzeArchitecture r).metrics.orphanEvents = (unhandledEvents r).length ∧
    (analyzeArchitecture r).metrics.orphanHandlers =
      (orphanHandlers r).length := by
  refine ⟨mem_unhandledEvents r e, mem_orphanHandlers r e, ?_, rfl, rfl⟩
  rintro ⟨h1, h2⟩
  rw [mem_unhandledEvents] at h1
  rw [mem_orphanHandlers] at h2
  exact h1.2 h2.1
